import Mathlib

/-!
Woodpecker: log access layer and checkpoint controller.

A shallow embedding of `main.go`: the three leaf-addressing strategies of the
log clients (sumdb directory bundles, tile bundles), the sumdb bundle decoder,
and the `Controller` operations that publish checkpoints and leaves into the
view-model.

Conventions of the embedding:

* Go `uint64` / `uint` values are natural numbers; arithmetic that can wrap is
  written with an explicit `% 2 ^ 64`.
* Go `[]byte` is `List UInt8`; Go `error` is `Option String` (`none` is `nil`).
* A Go function returning `(v, err)` returns a pair.
* Process termination (`klog.Exit`) and runtime panics (nil dereference, index
  out of range) are explicit outcomes.
-/

namespace Woodpecker

set_option linter.dupNamespace false

/-! ## Basic data -/

/-- Go `[]byte`. -/
abbrev Bytes := List UInt8

/-- Go `error` values, identified by their message. -/
abbrev Err := String

/-- The newline byte. -/
def nl : UInt8 := 10

/-- Bytes of an ASCII string literal. -/
def ascii (s : String) : Bytes := s.toList.map (fun ch => UInt8.ofNat ch.toNat)

/-! ## sumDBLogClient.GetLeaf: path construction -/

/-- Constant `pathBase` of `sumDBLogClient.GetLeaf`. -/
def pathBase : Nat := 1000

/-- Go `fmt.Sprintf("%03d", n)` for an unsigned `n`: the decimal digits of `n`,
left-padded with `0` to a minimum width of three. -/
def sprintf03d (n : Nat) : String :=
  let s := toString n
  "".pushn '0' (3 - s.length) ++ s

/-- The loop `for offset >= pathBase { offset /= pathBase; nStr = "x%03d/%s" }`
of `sumDBLogClient.GetLeaf`; returns the final `nStr`. -/
def sumDBPathLoop (offset : Nat) (nStr : String) : String :=
  if _h : offset ≥ pathBase then
    sumDBPathLoop (offset / pathBase)
      ("x" ++ sprintf03d (offset / pathBase % pathBase) ++ "/" ++ nStr)
  else nStr
termination_by offset
decreasing_by exact Nat.div_lt_self (by unfold pathBase at _h; omega) (by decide)

/-- The value of `path` in `sumDBLogClient.GetLeaf` right after
`path := fmt.Sprintf("/tile/8/data/%s", nStr)`. -/
def sumDBBundlePath (index : Nat) : String :=
  let offset := index / 256
  let nStr := sprintf03d (offset % pathBase)
  "/tile/8/data/" ++ sumDBPathLoop offset nStr

/-- The path `sumDBLogClient.GetLeaf` hands to the fetcher. -/
def sumDBLeafPath (index : Nat) : String :=
  let path := sumDBBundlePath index
  let rem := index % 256
  if rem ≠ 255 then path ++ ".p/" ++ toString (rem + 1) else path

/-! ## sumDBLogClient.GetLeaf: bundle decoding -/

/-- Body of the `for i, b := range data` loop of `dataToLeaves`, on the loop
state `(result, start)`. -/
def dataToLeavesStep (data : Bytes) (st : List Bytes × Nat) (ib : Nat × UInt8) :
    List Bytes × Nat :=
  if ib.2 = nl then
    if ib.1 > st.2 ∧ data[ib.1 - 1]? = some nl then
      (st.1 ++ [(data.drop st.2).take (ib.1 - st.2)], ib.1 + 1)
    else st
  else st

/-- The closure `dataToLeaves` of `sumDBLogClient.GetLeaf`. -/
def dataToLeaves (data : Bytes) : List Bytes :=
  let st := data.enum.foldl (dataToLeavesStep data) ([], 0)
  st.1 ++ [data.drop st.2]

/-- `sumDBLogClient.GetLeaf`, with the client's fetcher as argument. `none`
stands for the index-out-of-range panic of `leaves[index%256]`. -/
def sumDBLogClient.GetLeaf (fetcher : String → Bytes × Option Err) (_size index : Nat) :
    Option (Bytes × Option Err) :=
  let r := fetcher (sumDBLeafPath index)
  match r.2 with
  | some err => some ([], some err)
  | none =>
    let leaves := dataToLeaves r.1
    match leaves[index % 256]? with
    | some leaf => some (leaf, none)
    | none => none

/-! ## tLogTilesLogClient.GetLeaf -/

/-- `tLogTilesLogClient.GetLeaf`. The argument `GetEntryBundle` is the external
`tiles_client.GetEntryBundle` applied to the client's fetcher: from the bundle
index and the tree size to `bundle.Entries` and the error. `none` stands for
the index-out-of-range panic of `bundle.Entries[leafOffset]`. -/
def tLogTilesLogClient.GetLeaf (GetEntryBundle : Nat → Nat → List Bytes × Option Err)
    (size index : Nat) : Option (Bytes × Option Err) :=
  let bundleIndex := index / 256
  let leafOffset := index % 256
  let r := GetEntryBundle bundleIndex size
  match r.2 with
  | some err => some ([], some err)
  | none =>
    match r.1[leafOffset]? with
    | some leaf => some (leaf, none)
    | none => none

/-! ## Checkpoints, leaves and the view-model -/

/-- External `note.Note` (golang.org/x/mod/sumdb/note): signed text and the
names of its verified signers. -/
structure Note where
  Text : String
  Sigs : List String
deriving DecidableEq

/-- External `note.Verifier`, identified by its key name. -/
abbrev Verifier := String

/-- External `log.Checkpoint` (transparency-dev/formats/log). `Size` is a
`uint64`. -/
structure LogCheckpoint where
  Origin : String
  Size : Nat
  Hash : Bytes
deriving DecidableEq

/-- The struct `model.Checkpoint` as `main.go` builds it in its composite
literals `&model.Checkpoint{Checkpoint: cp, Note: n, Raw: bs}`: an embedded
`*log.Checkpoint` (possibly nil), the note (possibly nil) and the raw bytes. -/
structure Checkpoint where
  Checkpoint : Option LogCheckpoint
  Note : Option Note
  Raw : Bytes
deriving DecidableEq

/-- The struct `model.Leaf` as built in `Controller.GetLeaf`; `Index` is a
`uint64`. -/
structure Leaf where
  Contents : Bytes
  Index : Nat
deriving DecidableEq

/-- Modelled from the spec: the view-model `model.ViewModel` (package `model`)
is not among the sources. Per the specification it is the presentation sink
that receives `SetCheckpoint(logCP, witnessCP, error)` and
`SetLeaf(leaf, error)` and lets the controller read the current display state
back: the published checkpoint pair, the published leaf, the published error
and the quorum size `witnessN` (a Go `uint`, the type of the argument
`RestDistributor.GetCheckpointN` receives). -/
structure ViewModel where
  cp : Option Checkpoint
  witnessed : Option Checkpoint
  err : Option Err
  leaf : Leaf
  witnessN : Nat
deriving DecidableEq

/-- Modelled from the spec: `ViewModel.GetCheckpoint`, absent from the sources,
reads back the published log checkpoint. -/
def ViewModel.GetCheckpoint (m : ViewModel) : Option Checkpoint := m.cp

/-- Modelled from the spec: `ViewModel.GetError`, absent from the sources,
reads back the published error. -/
def ViewModel.GetError (m : ViewModel) : Option Err := m.err

/-- Modelled from the spec: `ViewModel.GetLeaf`, absent from the sources, reads
back the published leaf. -/
def ViewModel.GetLeaf (m : ViewModel) : Leaf := m.leaf

/-- Modelled from the spec: `ViewModel.GetWitnessN`, absent from the sources,
reads back the quorum size. -/
def ViewModel.GetWitnessN (m : ViewModel) : Nat := m.witnessN

/-- Modelled from the spec: `ViewModel.SetCheckpoint`, absent from the sources,
publishes the pair of checkpoints and the error as one update. -/
def ViewModel.SetCheckpoint (m : ViewModel) (cp witnessed : Option Checkpoint)
    (err : Option Err) : ViewModel :=
  { m with cp := cp, witnessed := witnessed, err := err }

/-- Modelled from the spec: `ViewModel.SetLeaf`, absent from the sources,
publishes a leaf and the error of fetching it. -/
def ViewModel.SetLeaf (m : ViewModel) (leaf : Leaf) (err : Option Err) : ViewModel :=
  { m with leaf := leaf, err := err }

/-- Modelled from the spec: `ViewModel.SetWitnessN`, absent from the sources,
stores the quorum size. -/
def ViewModel.SetWitnessN (m : ViewModel) (n : Nat) : ViewModel :=
  { m with witnessN := n }

/-! ## Log clients and external collaborators -/

/-- The interface `logClient`: the results its four methods return when
called. Each controller operation calls each method at most once. `GetLeaf`
yields `none` when the call panics instead of returning, as the
implementations `sumDBLogClient.GetLeaf` and `tLogTilesLogClient.GetLeaf` do
on a bundle with too few entries. -/
structure logClient where
  GetOrigin : String
  GetVerifier : Verifier
  GetCheckpoint : Option Checkpoint × Option Err
  GetLeaf : Nat → Nat → Option (Bytes × Option Err)

/-- External `distclient.RestDistributor`: the result of
`GetCheckpointN(logID, n)`. -/
structure RestDistributor where
  GetCheckpointN : String → Nat → Bytes × Option Err

/-- External package-level functions `main.go` calls: `log.ID` and
`log.ParseCheckpoint(bs, origin, verifier, witVerifiers...)`, the latter
returning `(checkpoint, remainder, note, error)`. -/
structure Extern where
  ID : String → String
  ParseCheckpoint : Bytes → String → Verifier → List Verifier →
    Option LogCheckpoint × Bytes × Option Note × Option Err

/-- `sumDBLogClient.GetCheckpoint`, with the client's fetcher as argument. -/
def sumDBLogClient.GetCheckpoint (ext : Extern) (origin : String) (verifier : Verifier)
    (fetcher : String → Bytes × Option Err) : Option Checkpoint × Option Err :=
  let r := fetcher "/latest"
  match r.2 with
  | some err => (none, some err)
  | none =>
    let p := ext.ParseCheckpoint r.1 origin verifier []
    (some { Checkpoint := p.1, Note := p.2.2.1, Raw := r.1 }, p.2.2.2)

/-- The struct `sumDBLogClient` as a `logClient`. -/
def sumDBLogClient.logClient (ext : Extern) (origin : String) (verifier : Verifier)
    (fetcher : String → Bytes × Option Err) : logClient :=
  { GetOrigin := origin
    GetVerifier := verifier
    GetCheckpoint := sumDBLogClient.GetCheckpoint ext origin verifier fetcher
    GetLeaf := sumDBLogClient.GetLeaf fetcher }

/-- The struct `tLogTilesLogClient` as a `logClient`. `FetchCheckpoint` is the
result `(cp, raw, n, err)` of the external `tiles_client.FetchCheckpoint` on the
client's fetcher, verifier and origin, and `GetEntryBundle` the external
`tiles_client.GetEntryBundle` on its fetcher. -/
def tLogTilesLogClient.logClient (origin : String) (verifier : Verifier)
    (FetchCheckpoint : Option LogCheckpoint × Bytes × Option Note × Option Err)
    (GetEntryBundle : Nat → Nat → List Bytes × Option Err) : logClient :=
  { GetOrigin := origin
    GetVerifier := verifier
    GetCheckpoint :=
      (some { Checkpoint := FetchCheckpoint.1, Note := FetchCheckpoint.2.2.1,
              Raw := FetchCheckpoint.2.1 }, FetchCheckpoint.2.2.2)
    GetLeaf := tLogTilesLogClient.GetLeaf GetEntryBundle }

/-! ## Controller -/

/-- Calls the controller makes on its collaborators, in program order. -/
inductive Event where
  | distGetCheckpointN (logID : String) (n : Nat)
  | parseCheckpoint (bs : Bytes) (origin : String)
  | clientGetCheckpoint (origin : String)
  | clientGetLeaf (origin : String) (size index : Nat)
  | setCheckpoint (cp wCP : Option Checkpoint) (err : Option Err)
  | setLeaf (leaf : Leaf) (err : Option Err)
  | setWitnessN (n : Nat)
  | exit (err : Err)
deriving DecidableEq

/-- How a controller operation ends: it returns, the process exits through
`klog.Exit`, or the Go runtime panics. -/
inductive Outcome where
  | done
  | exited (err : Err)
  | panicked
deriving DecidableEq

/-- The struct `Controller`. `trace` is a ghost field recording the calls made
so far. -/
structure Controller where
  Model : ViewModel
  LogClients : String → Option logClient
  Distributor : RestDistributor
  witVerifiers : List Verifier
  current : Option logClient
  trace : List Event

/-- The error of `fmt.Errorf("Cannot fetch leaf bigger than checkpoint size %d", size)`. -/
def boundsError (size : Nat) : Err :=
  "Cannot fetch leaf bigger than checkpoint size " ++ toString size

/-- The goroutine of `Controller.RefreshCheckpoint`: the value it sends on the
channel `witnessed`, and the calls it makes. -/
def witnessedCheckpoint (ext : Extern) (c : Controller) (cur : logClient) :
    Option Checkpoint × List Event :=
  let logID := ext.ID cur.GetOrigin
  let n := c.Model.GetWitnessN
  let r := c.Distributor.GetCheckpointN logID n
  match r.2 with
  | some _ => (none, [Event.distGetCheckpointN logID n])
  | none =>
    let p := ext.ParseCheckpoint r.1 cur.GetOrigin cur.GetVerifier c.witVerifiers
    (some { Checkpoint := p.1, Note := p.2.2.1, Raw := r.1 },
      [Event.distGetCheckpointN logID n, Event.parseCheckpoint r.1 cur.GetOrigin])

/-- `Controller.RefreshCheckpoint`. The goroutine and `c.current.GetCheckpoint()`
run concurrently and join on the channel before `SetCheckpoint`; their results
do not depend on the interleaving, and the trace lists the goroutine first. A
nil `c.current` panics. -/
def Controller.RefreshCheckpoint (ext : Extern) (c : Controller) : Outcome × Controller :=
  match c.current with
  | none => (Outcome.panicked, c)
  | some cur =>
    let w := witnessedCheckpoint ext c cur
    let r := cur.GetCheckpoint
    (Outcome.done,
      { c with
        Model := c.Model.SetCheckpoint r.1 w.1 r.2
        trace := c.trace ++ w.2 ++
          [Event.clientGetCheckpoint cur.GetOrigin, Event.setCheckpoint r.1 w.1 r.2] })

/-- `Controller.GetLeaf`. A panic inside the client's `GetLeaf` ends the
operation before `SetLeaf`. -/
def Controller.GetLeaf (c : Controller) (size index : Nat) : Outcome × Controller :=
  if index ≥ size then
    let leaf := c.Model.GetLeaf
    let err := some (boundsError size)
    (Outcome.done,
      { c with
        Model := c.Model.SetLeaf leaf err
        trace := c.trace ++ [Event.setLeaf leaf err] })
  else
    match c.current with
    | none => (Outcome.panicked, c)
    | some cur =>
      match cur.GetLeaf size index with
      | none =>
        (Outcome.panicked,
          { c with trace := c.trace ++ [Event.clientGetLeaf cur.GetOrigin size index] })
      | some r =>
        let leaf : Leaf := { Contents := r.1, Index := index }
        (Outcome.done,
          { c with
            Model := c.Model.SetLeaf leaf r.2
            trace := c.trace ++
              [Event.clientGetLeaf cur.GetOrigin size index, Event.setLeaf leaf r.2] })

/-- The expression `c.Model.GetCheckpoint().Size`: `none` when the published
checkpoint or its embedded `*log.Checkpoint` is nil (a nil dereference). -/
def publishedSize (m : ViewModel) : Option Nat :=
  match m.GetCheckpoint with
  | none => none
  | some cp =>
    match cp.Checkpoint with
    | none => none
    | some lc => some lc.Size

/-- `Controller.PrevLeaf`; the subtraction is on `uint64`. -/
def Controller.PrevLeaf (c : Controller) : Outcome × Controller :=
  match publishedSize c.Model with
  | none => (Outcome.panicked, c)
  | some size => c.GetLeaf size ((c.Model.GetLeaf.Index + 2 ^ 64 - 1) % 2 ^ 64)

/-- `Controller.NextLeaf`; the addition is on `uint64`. -/
def Controller.NextLeaf (c : Controller) : Outcome × Controller :=
  match publishedSize c.Model with
  | none => (Outcome.panicked, c)
  | some size => c.GetLeaf size ((c.Model.GetLeaf.Index + 1) % 2 ^ 64)

/-- `Controller.IncWitnesses`; the addition is on `uint`, 64 bits wide on 64-bit
targets, and wraps. -/
def Controller.IncWitnesses (ext : Extern) (c : Controller) : Outcome × Controller :=
  let n := (c.Model.GetWitnessN + 1) % 2 ^ 64
  Controller.RefreshCheckpoint ext
    { c with Model := c.Model.SetWitnessN n, trace := c.trace ++ [Event.setWitnessN n] }

/-- `Controller.DecWitnesses`. -/
def Controller.DecWitnesses (ext : Extern) (c : Controller) : Outcome × Controller :=
  if c.Model.GetWitnessN ≤ 1 then (Outcome.done, c)
  else
    let n := c.Model.GetWitnessN - 1
    Controller.RefreshCheckpoint ext
      { c with Model := c.Model.SetWitnessN n, trace := c.trace ++ [Event.setWitnessN n] }

/-- `Controller.InitFromLog`. -/
def Controller.InitFromLog (ext : Extern) (c : Controller) : Outcome × Controller :=
  match Controller.RefreshCheckpoint ext c with
  | (Outcome.done, c1) =>
    match c1.Model.GetError with
    | some err => (Outcome.exited err, { c1 with trace := c1.trace ++ [Event.exit err] })
    | none =>
      match c1.Model.GetCheckpoint with
      | none => (Outcome.done, c1)
      | some cp =>
        match cp.Checkpoint with
        | none => (Outcome.panicked, c1)
        | some lc =>
          if lc.Size > 0 then c1.GetLeaf lc.Size (lc.Size - 1) else (Outcome.done, c1)
  | r => r

/-- `Controller.SelectLog`. -/
def Controller.SelectLog (ext : Extern) (c : Controller) (o : String) : Outcome × Controller :=
  match c.LogClients o with
  | some n => Controller.InitFromLog ext { c with current := some n }
  | none => (Outcome.done, c)

/-! ### The path as the specification words it -/

/-- The decimal digit character of `d < 10`. -/
def digitChar (d : Nat) : Char := Char.ofNat (48 + d)

/-- A number below 1000 written as exactly three decimal digits. -/
def threeDigits (d : Nat) : String :=
  String.mk [digitChar (d / 100), digitChar (d / 10 % 10), digitChar (d % 10)]

/-- Base-1000 digits of `n`, most significant first (`[0]` for zero). -/
def base1000Digits (n : Nat) : List Nat :=
  if n = 0 then [0] else (Nat.digits 1000 n).reverse

/-- Segments joined by `/`. -/
def joinSlash : List String → String
  | [] => ""
  | [s] => s
  | s :: t :: r => s ++ "/" ++ joinSlash (t :: r)

/-- One three-digit segment per digit; every segment but the last carries the
prefix `x`. -/
def specSegments (ds : List Nat) : List String :=
  ds.dropLast.map (fun d => "x" ++ threeDigits d) ++ ds.getLast?.toList.map threeDigits

/-- The bundle path as the specification describes it. -/
def specBundlePath (bundleNumber : Nat) : String :=
  "/tile/8/data/" ++ joinSlash (specSegments (base1000Digits bundleNumber))

/-- Concatenation of a list of strings. -/
def concatAll : List String → String
  | [] => ""
  | s :: t => s ++ concatAll t

/-- The `x`-prefixed segments the loop puts in front of `nStr`. -/
def higherSegments (offset : Nat) : String :=
  concatAll ((Nat.digits 1000 (offset / 1000)).reverse.map
    (fun d => "x" ++ sprintf03d d ++ "/"))

/-! ### Records, bundles and outcomes as the specification words them -/

/-- Records joined with one extra newline between neighbours. -/
def joinRecords : List Bytes → Bytes
  | [] => []
  | [r] => r
  | r :: s :: t => r ++ nl :: joinRecords (s :: t)

/-- A record holds no two consecutive newline bytes. -/
def NoBlankLine (r : Bytes) : Prop := ¬ [nl, nl] <:+: r

instance (r : Bytes) : Decidable (NoBlankLine r) := by unfold NoBlankLine; infer_instance

/-- Number of leaves entry bundle `b` holds in a tree of `size` leaves: 256 for
a full bundle, the remainder for the partial last one. -/
def bundleLeafCount (size b : Nat) : Nat :=
  if 256 * (b + 1) ≤ size then 256 else size - 256 * b

/-- The external tile convention on a fixture: the entries of bundle `b`, for
a tree of `size` leaves, of the log whose leaves are `leaves`. -/
def entryBundleOf (leaves : List Bytes) (b size : Nat) : List Bytes × Option Err :=
  ((leaves.drop (256 * b)).take (bundleLeafCount size b), none)

/-- The operation returned having published, through `SetLeaf`, the bounds
error for `size` together with the leaf that was current before, and made no
other call: in particular none on the log client. -/
def BoundsRejected (c : Controller) (size : Nat) (r : Outcome × Controller) : Prop :=
  r.1 = Outcome.done ∧
  r.2.trace = c.trace ++ [Event.setLeaf c.Model.GetLeaf (some (boundsError size))] ∧
  r.2.Model.GetLeaf = c.Model.GetLeaf ∧
  r.2.Model.GetError = some (boundsError size) ∧
  ∀ o s i, Event.clientGetLeaf o s i ∉ r.2.trace.drop c.trace.length

/-! ## Fixtures for concrete evaluation -/

/-- Collaborators whose checkpoint parser rejects every input. -/
def rejectingExtern : Extern :=
  { ID := fun o => o
    ParseCheckpoint := fun _ _ _ _ => (none, [], none, some "no log signature found on note") }

/-- A distributor that answers every request with the same bytes. -/
def answeringDistributor : RestDistributor :=
  { GetCheckpointN := fun _ _ => (ascii "unsigned", none) }

/-- A log client reporting a checkpoint of the given size, with one-byte leaves. -/
def healthyClient (origin : String) (size : Nat) : logClient :=
  { GetOrigin := origin
    GetVerifier := origin
    GetCheckpoint :=
      (some { Checkpoint := some { Origin := origin, Size := size, Hash := [] },
              Note := none, Raw := [] }, none)
    GetLeaf := fun _ index => some ([UInt8.ofNat index], none) }

/-- A log client whose checkpoint fetch fails. -/
def failingClient (origin : String) : logClient :=
  { GetOrigin := origin
    GetVerifier := origin
    GetCheckpoint := (none, some "unexpected http status")
    GetLeaf := fun _ _ => some ([], some "unexpected http status") }

/-- A controller showing one leaf of a five-leaf log `a`, with an empty log
`empty` and an unreachable log `down` also configured. -/
def sampleController (witnessN leafIndex : Nat) : Controller :=
  { Model :=
      { cp := (healthyClient "a" 5).GetCheckpoint.1
        witnessed := none
        err := none
        leaf := { Contents := [UInt8.ofNat leafIndex], Index := leafIndex }
        witnessN := witnessN }
    LogClients := fun o =>
      if o = "a" then some (healthyClient "a" 5)
      else if o = "empty" then some (healthyClient "empty" 0)
      else if o = "down" then some (failingClient "down")
      else none
    Distributor := answeringDistributor
    witVerifiers := []
    current := some (healthyClient "a" 5)
    trace := [] }

/-- A fetcher that serves the first four records of bundle 0 at the partial
path `/tile/8/data/000.p/4` and fails on every other path. -/
def onePathFetcher (path : String) : Bytes × Option Err :=
  if path = "/tile/8/data/000.p/4" then (ascii "A\n\nB\n\nC\n\nD", none)
  else ([], some "unexpected http status")

/-- A fetcher that answers every path with an empty blob. -/
def emptyFetcher (_path : String) : Bytes × Option Err := ([], none)

/-- A distributor whose every request fails. -/
def failingDistributor : RestDistributor :=
  { GetCheckpointN := fun _ _ => ([], some "unexpected http status") }

/-- A log client with a healthy five-leaf checkpoint whose leaf fetches fail. -/
def leaflessClient (origin : String) : logClient :=
  { healthyClient origin 5 with
    GetLeaf := fun _ _ => some ([], some "unexpected http status") }

/-! ## Lemmas on the sumdb path -/

theorem concatAll_append (a b : List String) :
    concatAll (a ++ b) = concatAll a ++ concatAll b := by
  induction a with
  | nil => simp [concatAll]
  | cons s t ih => simp [concatAll, ih, String.append_assoc]

theorem sprintf03d_eq_threeDigits : ∀ n < 1000, sprintf03d n = threeDigits n := by
  decide!

theorem higherSegments_of_lt {offset : Nat} (h : offset < 1000) :
    higherSegments offset = "" := by
  have h0 : offset / 1000 = 0 := by omega
  simp [higherSegments, h0, concatAll]

theorem higherSegments_of_ge {offset : Nat} (h : 1000 ≤ offset) :
    higherSegments offset =
      higherSegments (offset / 1000) ++ ("x" ++ sprintf03d (offset / 1000 % 1000) ++ "/") := by
  have hpos : 0 < offset / 1000 := Nat.div_pos h (by decide)
  have hd : Nat.digits 1000 (offset / 1000) =
      (offset / 1000 % 1000) :: Nat.digits 1000 (offset / 1000 / 1000) :=
    Nat.digits_def' (by decide) hpos
  unfold higherSegments
  rw [hd]
  simp [concatAll_append, concatAll]

theorem sumDBPathLoop_eq (offset : Nat) :
    ∀ nStr, sumDBPathLoop offset nStr = higherSegments offset ++ nStr := by
  induction offset using Nat.strong_induction_on with
  | _ offset ih =>
    intro nStr
    rw [sumDBPathLoop]
    by_cases h : offset ≥ pathBase
    · have h1 : 1000 ≤ offset := h
      have hlt : offset / pathBase < offset :=
        Nat.div_lt_self (by omega) (by decide)
      rw [dif_pos h, ih _ hlt]
      simp only [pathBase]
      rw [higherSegments_of_ge h1]
      simp [String.append_assoc]
    · have h1 : offset < 1000 := by unfold pathBase at h; omega
      rw [dif_neg h, higherSegments_of_lt h1]
      simp

theorem joinSlash_cons (a : String) (q : List String) (hq : q ≠ []) :
    joinSlash (a :: q) = a ++ "/" ++ joinSlash q := by
  cases q with
  | nil => exact absurd rfl hq
  | cons b r => rfl

theorem joinSlash_snoc (l : List Nat) (s : String) :
    joinSlash (l.map (fun d => "x" ++ threeDigits d) ++ [s]) =
      concatAll (l.map (fun d => "x" ++ threeDigits d ++ "/")) ++ s := by
  induction l with
  | nil => simp [joinSlash, concatAll]
  | cons d t ih =>
    rw [List.map_cons, List.cons_append, joinSlash_cons _ _ (by simp), ih,
      List.map_cons, concatAll]
    simp [String.append_assoc]

theorem map_segments_congr (l : List Nat) (h : ∀ d ∈ l, d < 1000) :
    l.map (fun d => "x" ++ sprintf03d d ++ "/") =
      l.map (fun d => "x" ++ threeDigits d ++ "/") := by
  apply List.map_congr_left
  intro d hd
  rw [sprintf03d_eq_threeDigits d (h d hd)]

theorem specSegments_join (n : Nat) :
    joinSlash (specSegments (base1000Digits n)) =
      higherSegments n ++ sprintf03d (n % 1000) := by
  have hmod : n % 1000 < 1000 := Nat.mod_lt _ (by decide)
  rw [sprintf03d_eq_threeDigits _ hmod]
  by_cases h0 : n = 0
  · subst h0
    simp [base1000Digits, specSegments, joinSlash, higherSegments, concatAll]
  · have hpos : 0 < n := Nat.pos_of_ne_zero h0
    have hd : Nat.digits 1000 n = (n % 1000) :: Nat.digits 1000 (n / 1000) :=
      Nat.digits_def' (by decide) hpos
    have hlt : ∀ d ∈ (Nat.digits 1000 (n / 1000)).reverse, d < 1000 := by
      intro d hd
      exact Nat.digits_lt_base (by decide) (List.mem_reverse.mp hd)
    simp only [base1000Digits, if_neg h0, hd, List.reverse_cons, specSegments,
      List.dropLast_concat, List.getLast?_append, List.getLast?_singleton,
      Option.toList, List.map_cons, List.map_nil, Option.or]
    rw [joinSlash_snoc, higherSegments, map_segments_congr _ hlt]

theorem sumDBBundlePath_eq_spec (index : Nat) :
    sumDBBundlePath index = specBundlePath (index / 256) := by
  simp only [sumDBBundlePath, specBundlePath, pathBase]
  rw [sumDBPathLoop_eq, specSegments_join]

theorem sumDBBundlePath_lt_256 (index : Nat) (h : index < 256) :
    sumDBBundlePath index = "/tile/8/data/000" := by
  have h0 : index / 256 = 0 := by omega
  simp only [sumDBBundlePath, h0]
  rw [sumDBPathLoop]
  simp [pathBase]
  decide

theorem sumDBBundlePath_256 : sumDBBundlePath 256 = "/tile/8/data/001" := by
  simp [sumDBBundlePath, sumDBPathLoop, pathBase]
  decide

theorem sumDBBundlePath_1500 :
    sumDBBundlePath (1500 * 256) = "/tile/8/data/x001/500" := by
  simp [sumDBBundlePath, sumDBPathLoop, pathBase]
  decide

theorem sumDBLeafPath_3 : sumDBLeafPath 3 = "/tile/8/data/000.p/4" := by
  simp only [sumDBLeafPath, sumDBBundlePath_lt_256 3 (by decide)]
  decide

/-! ## Lemmas on the sumdb decoder -/

theorem getElem?_mid (a : Bytes) (c : UInt8) (b : Bytes) :
    (a ++ c :: b)[a.length]? = some c := by
  rw [List.getElem?_append_right (Nat.le_refl _)]
  simp

theorem step_inside (data pre r1 rest : Bytes) (b : UInt8) (result : List Bytes)
    (hdata : data = pre ++ r1 ++ b :: rest) (hno : NoBlankLine (r1 ++ [b])) :
    dataToLeavesStep data (result, pre.length) (pre.length + r1.length, b) =
      (result, pre.length) := by
  unfold dataToLeavesStep
  by_cases hb : b = nl
  · subst hb
    rw [if_pos rfl, if_neg]
    rintro ⟨hgt, hprev⟩
    simp only at hgt hprev
    rcases List.eq_nil_or_concat r1 with h | ⟨r0, c, h⟩
    · subst h; simp at hgt
    · rw [List.concat_eq_append] at h
      subst h
      have hidx : pre.length + (r0 ++ [c]).length - 1 = (pre ++ r0).length := by
        simp only [List.length_append, List.length_singleton]; omega
      have hd2 : data = (pre ++ r0) ++ c :: (nl :: rest) := by
        rw [hdata]; simp
      rw [hidx, hd2, getElem?_mid] at hprev
      have hc : c = nl := by simpa using hprev
      subst hc
      apply hno
      exact ⟨r0, [], by simp⟩
  · rw [if_neg hb]

/-- Scanning the bytes of a record that holds no blank line leaves the loop
state untouched. -/
theorem fold_inside (data pre rest : Bytes) (result : List Bytes) :
    ∀ (r2 r1 : Bytes), data = pre ++ r1 ++ r2 ++ rest → NoBlankLine (r1 ++ r2) →
      (r2.enumFrom (pre.length + r1.length)).foldl (dataToLeavesStep data)
        (result, pre.length) = (result, pre.length) := by
  intro r2
  induction r2 with
  | nil => intro r1 _ _; rfl
  | cons b t ih =>
    intro r1 hdata hno
    rw [List.enumFrom_cons, List.foldl_cons, step_inside data pre r1 (t ++ rest) b result]
    · have hlen : pre.length + r1.length + 1 = pre.length + (r1 ++ [b]).length := by
        simp only [List.length_append, List.length_singleton]; omega
      rw [hlen]
      apply ih (r1 ++ [b])
      · rw [hdata]; simp
      · simpa using hno
    · rw [hdata]; simp
    · intro hinf
      apply hno
      obtain ⟨u, v, huv⟩ := hinf
      exact ⟨u, v ++ t, by rw [← List.append_assoc, huv]; simp⟩

/-- At the separating newline after a non-empty record that ends in a newline
the loop appends that record and restarts behind the separator. -/
theorem step_separator (data pre r rest : Bytes) (result : List Bytes)
    (hdata : data = pre ++ r ++ nl :: rest) (hlast : r.getLast? = some nl) :
    dataToLeavesStep data (result, pre.length) (pre.length + r.length, nl) =
      (result ++ [r], pre.length + r.length + 1) := by
  rcases List.eq_nil_or_concat r with h | ⟨r0, c, h⟩
  · subst h; simp at hlast
  · rw [List.concat_eq_append] at h
    subst h
    have hc : c = nl := by simpa using hlast
    subst hc
    have hidx : pre.length + (r0 ++ [nl]).length - 1 = (pre ++ r0).length := by
      simp only [List.length_append, List.length_singleton]; omega
    have hd2 : data = (pre ++ r0) ++ nl :: (nl :: rest) := by
      rw [hdata]; simp
    have hprev : data[pre.length + (r0 ++ [nl]).length - 1]? = some nl := by
      rw [hidx, hd2, getElem?_mid]
    have hgt : pre.length + (r0 ++ [nl]).length > pre.length := by
      simp only [List.length_append, List.length_singleton]; omega
    have hslice : (data.drop pre.length).take (pre.length + (r0 ++ [nl]).length - pre.length)
        = r0 ++ [nl] := by
      rw [hdata, List.append_assoc, List.drop_left, Nat.add_sub_cancel_left, List.take_left]
    unfold dataToLeavesStep
    simp only
    rw [if_pos True.intro, if_pos ⟨hgt, hprev⟩, hslice]

/-- The loop state after scanning the joined records, started at their
beginning. -/
theorem fold_records (data : Bytes) :
    ∀ (recs : List Bytes) (pre : Bytes) (result : List Bytes), recs ≠ [] →
      data = pre ++ joinRecords recs →
      (∀ r ∈ recs, NoBlankLine r) →
      (∀ r ∈ recs.dropLast, r.getLast? = some nl) →
      let st := ((joinRecords recs).enumFrom pre.length).foldl (dataToLeavesStep data)
        (result, pre.length)
      st.1 ++ [data.drop st.2] = result ++ recs := by
  intro recs
  induction recs with
  | nil => intro _ _ h; exact absurd rfl h
  | cons r t ih =>
    intro pre result _ hdata hno hlast
    cases t with
    | nil =>
      simp only [joinRecords] at hdata ⊢
      have h := fold_inside data pre [] result r [] (by simpa using hdata)
        (by simpa using hno r (List.mem_singleton.mpr rfl))
      simp only [List.length_nil, Nat.add_zero] at h
      rw [h, hdata]
      simp
    | cons s u =>
      simp only [joinRecords] at hdata ⊢
      have h1 := fold_inside data pre (nl :: joinRecords (s :: u)) result r []
        (by simpa using hdata) (by simpa using hno r (List.mem_cons_self _ _))
      simp only [List.length_nil, Nat.add_zero] at h1
      have h2 := step_separator data pre r (joinRecords (s :: u)) result
        (by simpa using hdata) (hlast r (by simp))
      have hpre : pre.length + r.length + 1 = (pre ++ r ++ [nl]).length := by
        simp only [List.length_append, List.length_singleton]
      rw [List.enumFrom_append, List.foldl_append, h1, List.enumFrom_cons, List.foldl_cons,
        h2, hpre]
      have h3 := ih (pre ++ r ++ [nl]) (result ++ [r]) (by simp) (by rw [hdata]; simp)
        (fun q hq => hno q (List.mem_cons_of_mem _ hq))
        (fun q hq => hlast q (by simp [List.dropLast] at hq ⊢; exact Or.inr hq))
      simp only at h3
      rw [h3]
      simp

theorem dataToLeaves_joinRecords (recs : List Bytes) (hne : recs ≠ [])
    (hno : ∀ r ∈ recs, NoBlankLine r)
    (hlast : ∀ r ∈ recs.dropLast, r.getLast? = some nl) :
    dataToLeaves (joinRecords recs) = recs := by
  have h := fold_records (joinRecords recs) recs [] [] hne (by simp) hno hlast
  simpa [dataToLeaves, List.enum] using h
/-! ## Lemmas on tile bundles -/

theorem offset_lt_bundleLeafCount (size index : Nat) (h : index < size) :
    index % 256 < bundleLeafCount size (index / 256) := by
  unfold bundleLeafCount
  split <;> omega

theorem entryBundleOf_getElem? (leaves : List Bytes) (size index : Nat) (h : index < size) :
    (entryBundleOf leaves (index / 256) size).1[index % 256]? = leaves[index]? := by
  have hlt := offset_lt_bundleLeafCount size index h
  have hidx : 256 * (index / 256) + index % 256 = index := Nat.div_add_mod index 256
  simp only [entryBundleOf]
  rw [List.getElem?_take_of_lt hlt, List.getElem?_drop, hidx]

/-! ## Lemmas on the controller -/

theorem getLeaf_boundsRejected (c : Controller) (size index : Nat) (h : index ≥ size) :
    BoundsRejected c size (c.GetLeaf size index) := by
  simp [BoundsRejected, Controller.GetLeaf, h, ViewModel.SetLeaf, ViewModel.GetLeaf,
    ViewModel.GetError]

theorem refresh_of_current (ext : Extern) (c : Controller) (cur : logClient)
    (hcur : c.current = some cur) :
    c.RefreshCheckpoint ext =
      (Outcome.done,
        { c with
          Model := c.Model.SetCheckpoint cur.GetCheckpoint.1 (witnessedCheckpoint ext c cur).1
            cur.GetCheckpoint.2
          trace := c.trace ++ (witnessedCheckpoint ext c cur).2 ++
            [Event.clientGetCheckpoint cur.GetOrigin,
              Event.setCheckpoint cur.GetCheckpoint.1 (witnessedCheckpoint ext c cur).1
                cur.GetCheckpoint.2] }) := by
  simp [Controller.RefreshCheckpoint, hcur]

/-- When the current log client is set, `RefreshCheckpoint` returns having
published through `SetCheckpoint` exactly the checkpoint and
error the client's `GetCheckpoint` returned; the witness checkpoint it
publishes is none when the distributor's `GetCheckpointN` fails, and otherwise
is a record of the distributor's raw bytes with whatever checkpoint and note
`ParseCheckpoint` returned (the parse error is dropped). -/
theorem refreshCheckpoint_publishes (ext : Extern) (c : Controller) (cur : logClient)
    (hcur : c.current = some cur) :
    (c.RefreshCheckpoint ext).1 = Outcome.done ∧
    (c.RefreshCheckpoint ext).2.Model.GetCheckpoint = cur.GetCheckpoint.1 ∧
    (c.RefreshCheckpoint ext).2.Model.GetError = cur.GetCheckpoint.2 ∧
    Event.setCheckpoint cur.GetCheckpoint.1 (c.RefreshCheckpoint ext).2.Model.witnessed
        cur.GetCheckpoint.2 ∈ (c.RefreshCheckpoint ext).2.trace.drop c.trace.length ∧
    ((c.Distributor.GetCheckpointN (ext.ID cur.GetOrigin) c.Model.GetWitnessN).2 ≠ none →
      (c.RefreshCheckpoint ext).2.Model.witnessed = none) ∧
    ((c.Distributor.GetCheckpointN (ext.ID cur.GetOrigin) c.Model.GetWitnessN).2 = none →
      (c.RefreshCheckpoint ext).2.Model.witnessed =
        some
          { Checkpoint :=
              (ext.ParseCheckpoint
                (c.Distributor.GetCheckpointN (ext.ID cur.GetOrigin) c.Model.GetWitnessN).1
                cur.GetOrigin cur.GetVerifier c.witVerifiers).1
            Note :=
              (ext.ParseCheckpoint
                (c.Distributor.GetCheckpointN (ext.ID cur.GetOrigin) c.Model.GetWitnessN).1
                cur.GetOrigin cur.GetVerifier c.witVerifiers).2.2.1
            Raw :=
              (c.Distributor.GetCheckpointN (ext.ID cur.GetOrigin) c.Model.GetWitnessN).1 }) := by
  rw [refresh_of_current ext c cur hcur]
  refine ⟨rfl, rfl, rfl, ?_, ?_, ?_⟩
  · simp [ViewModel.SetCheckpoint]
  · intro hd
    simp only [ViewModel.SetCheckpoint, witnessedCheckpoint]
    cases hr : (c.Distributor.GetCheckpointN (ext.ID cur.GetOrigin) c.Model.GetWitnessN).2 with
    | none => exact absurd hr hd
    | some e => rfl
  · intro hd
    simp only [ViewModel.SetCheckpoint, witnessedCheckpoint, hd]

/-- The goroutine of `RefreshCheckpoint` calls neither `SetLeaf` nor the log
client's `GetLeaf`. -/
theorem witnessedCheckpoint_no_leaf_event (ext : Extern) (c : Controller) (cur : logClient) :
    (∀ leaf err, Event.setLeaf leaf err ∉ (witnessedCheckpoint ext c cur).2) ∧
    (∀ o s i, Event.clientGetLeaf o s i ∉ (witnessedCheckpoint ext c cur).2) := by
  simp only [witnessedCheckpoint]
  cases (c.Distributor.GetCheckpointN (ext.ID cur.GetOrigin) c.Model.GetWitnessN).2 <;> simp

/-- The calls of a `RefreshCheckpoint` hold neither `SetLeaf` nor the log
client's `GetLeaf`. -/
theorem refresh_no_leaf_event (ext : Extern) (c : Controller) (cur : logClient)
    (hcur : c.current = some cur) :
    (∀ leaf err, Event.setLeaf leaf err ∉ (c.RefreshCheckpoint ext).2.trace.drop c.trace.length) ∧
    (∀ o s i, Event.clientGetLeaf o s i ∉
      (c.RefreshCheckpoint ext).2.trace.drop c.trace.length) := by
  have hw := witnessedCheckpoint_no_leaf_event ext c cur
  rw [refresh_of_current ext c cur hcur]
  simp only [List.append_assoc, List.drop_left]
  constructor
  · intro leaf err hmem
    rcases List.mem_append.mp hmem with h | h
    · exact hw.1 leaf err h
    · simp at h
  · intro o s i hmem
    rcases List.mem_append.mp hmem with h | h
    · exact hw.2 o s i h
    · simp at h

/-- The fetch branch of `Controller.GetLeaf` when the client's `GetLeaf`
returns. -/
theorem getLeaf_fetch (c : Controller) (cur : logClient) (size index : Nat)
    (r : Bytes × Option Err) (hcur : c.current = some cur) (hlt : index < size)
    (hr : cur.GetLeaf size index = some r) :
    c.GetLeaf size index =
      (Outcome.done,
        { c with
          Model := c.Model.SetLeaf { Contents := r.1, Index := index } r.2
          trace := c.trace ++
            [Event.clientGetLeaf cur.GetOrigin size index,
              Event.setLeaf { Contents := r.1, Index := index } r.2] }) := by
  have h : ¬ index ≥ size := by omega
  simp [Controller.GetLeaf, h, hcur, hr]

/-- The fetch branch of `Controller.GetLeaf` when the client's `GetLeaf`
panics: the operation panics, nothing is published. -/
theorem getLeaf_panic (c : Controller) (cur : logClient) (size index : Nat)
    (hcur : c.current = some cur) (hlt : index < size)
    (hr : cur.GetLeaf size index = none) :
    c.GetLeaf size index =
      (Outcome.panicked,
        { c with trace := c.trace ++ [Event.clientGetLeaf cur.GetOrigin size index] }) := by
  have h : ¬ index ≥ size := by omega
  simp [Controller.GetLeaf, h, hcur, hr]

/-- `InitFromLog` on a failed checkpoint fetch: the error is published by the
refresh and the process exits. -/
theorem initFromLog_exit (ext : Extern) (c : Controller) (cur : logClient) (err : Err)
    (hcur : c.current = some cur) (herr : cur.GetCheckpoint.2 = some err) :
    c.InitFromLog ext =
      (Outcome.exited err,
        { (c.RefreshCheckpoint ext).2 with
          trace := (c.RefreshCheckpoint ext).2.trace ++ [Event.exit err] }) := by
  unfold Controller.InitFromLog
  simp only [refresh_of_current ext c cur hcur]
  simp [ViewModel.SetCheckpoint, ViewModel.GetError, herr]

/-- `InitFromLog` on an error-free checkpoint of positive size: the refresh,
then `GetLeaf(size, size-1)`. -/
theorem initFromLog_fetch (ext : Extern) (c : Controller) (cur : logClient)
    (cp : Checkpoint) (lc : LogCheckpoint) (hcur : c.current = some cur)
    (hgc : cur.GetCheckpoint = (some cp, none)) (hlc : cp.Checkpoint = some lc)
    (hpos : 0 < lc.Size) :
    c.InitFromLog ext = Controller.GetLeaf (c.RefreshCheckpoint ext).2 lc.Size (lc.Size - 1) := by
  unfold Controller.InitFromLog
  simp only [refresh_of_current ext c cur hcur]
  simp [ViewModel.SetCheckpoint, ViewModel.GetError, ViewModel.GetCheckpoint, hgc, hlc, hpos]

/-- `InitFromLog` on an error-free checkpoint of size 0: the refresh and
nothing more. -/
theorem initFromLog_empty (ext : Extern) (c : Controller) (cur : logClient)
    (cp : Checkpoint) (lc : LogCheckpoint) (hcur : c.current = some cur)
    (hgc : cur.GetCheckpoint = (some cp, none)) (hlc : cp.Checkpoint = some lc)
    (h0 : lc.Size = 0) :
    c.InitFromLog ext = (Outcome.done, (c.RefreshCheckpoint ext).2) := by
  unfold Controller.InitFromLog
  simp only [refresh_of_current ext c cur hcur]
  simp [ViewModel.SetCheckpoint, ViewModel.GetError, ViewModel.GetCheckpoint, hgc, hlc, h0]

/-- Whatever `InitFromLog` goes on to do, it starts with the refresh: the
current client is kept, the calls of the refresh open the trace, and the
checkpoint the client returned is the one published. -/
theorem initFromLog_refreshes (ext : Extern) (c : Controller) (cur : logClient)
    (hcur : c.current = some cur) :
    (c.InitFromLog ext).2.current = some cur ∧
    (c.RefreshCheckpoint ext).2.trace <+: (c.InitFromLog ext).2.trace ∧
    Event.clientGetCheckpoint cur.GetOrigin ∈ (c.InitFromLog ext).2.trace.drop c.trace.length ∧
    (c.InitFromLog ext).2.Model.GetCheckpoint = cur.GetCheckpoint.1 := by
  unfold Controller.InitFromLog
  simp only [refresh_of_current ext c cur hcur]
  rcases hgc : cur.GetCheckpoint with ⟨cpo, erro⟩
  cases erro with
  | some e =>
    simp [ViewModel.SetCheckpoint, ViewModel.GetError, ViewModel.GetCheckpoint, hcur]
  | none =>
    cases cpo with
    | none => simp [ViewModel.SetCheckpoint, ViewModel.GetError, ViewModel.GetCheckpoint, hcur]
    | some cp =>
      cases hlc : cp.Checkpoint with
      | none =>
        simp [ViewModel.SetCheckpoint, ViewModel.GetError, ViewModel.GetCheckpoint, hcur, hlc]
      | some lc =>
        by_cases hpos : lc.Size > 0
        · have hlt : ¬ lc.Size - 1 ≥ lc.Size := by omega
          cases hr : cur.GetLeaf lc.Size (lc.Size - 1) with
          | none =>
            simp [ViewModel.SetCheckpoint, ViewModel.GetError, ViewModel.GetCheckpoint, hcur,
              hlc, hpos, Controller.GetLeaf, hlt, hr]
          | some r =>
            simp [ViewModel.SetCheckpoint, ViewModel.GetError, ViewModel.GetCheckpoint, hcur,
              hlc, hpos, Controller.GetLeaf, hlt, hr, ViewModel.SetLeaf]
        · simp [ViewModel.SetCheckpoint, ViewModel.GetError, ViewModel.GetCheckpoint, hcur,
            hlc, hpos]

/-- A short bundle is a panic, not an error: a sumdb client whose fetcher
answers with an empty blob decodes one empty record, `leaves[index%256]` at
offset 2 is out of range, and `Controller.GetLeaf` panics without publishing. -/
theorem getLeaf_short_bundle_panics :
    (sumDBLogClient.logClient rejectingExtern "s" "s" emptyFetcher).GetLeaf 5 2 = none ∧
    (Controller.GetLeaf
      (Controller.mk (sampleController 1 4).Model (sampleController 1 4).LogClients
        answeringDistributor []
        (some (sumDBLogClient.logClient rejectingExtern "s" "s" emptyFetcher)) []) 5 2).1 =
      Outcome.panicked := by
  have h : (sumDBLogClient.logClient rejectingExtern "s" "s" emptyFetcher).GetLeaf 5 2 =
      none := by
    simp only [sumDBLogClient.logClient, sumDBLogClient.GetLeaf, emptyFetcher]
    decide
  refine ⟨h, ?_⟩
  rw [getLeaf_panic _ _ 5 2 rfl (by decide) h]

/-! ## Claims -/

/-- C1: for every leaf index the path built by `sumDBLogClient.GetLeaf` before
any partial suffix is `/tile/8/data/` followed by the base-1000 digits of
`index / 256`, most significant first, each as exactly three decimal digits,
joined by `/`, all but the last prefixed by `x`; the building loop is a total
function. Indices 0..255 give `/tile/8/data/000`, index 256 gives
`/tile/8/data/001`, bundle number 1500 gives `/tile/8/data/x001/500`. -/
theorem C1_sumdb_bundle_path :
    (∀ index : Nat, sumDBBundlePath index = specBundlePath (index / 256)) ∧
    (∀ index : Nat, index < 256 → sumDBBundlePath index = "/tile/8/data/000") ∧
    sumDBBundlePath 256 = "/tile/8/data/001" ∧
    (∀ index : Nat, index / 256 = 1500 → sumDBBundlePath index = "/tile/8/data/x001/500") := by
  refine ⟨sumDBBundlePath_eq_spec, sumDBBundlePath_lt_256, sumDBBundlePath_256, ?_⟩
  intro index h
  have := sumDBBundlePath_1500
  simp only [sumDBBundlePath] at this ⊢
  rw [h]
  simpa using this

theorem C1_sumdb_bundle_path_witness :
    7 < 256 ∧ sumDBBundlePath 7 = "/tile/8/data/000" ∧
    384123 / 256 = 1500 ∧ sumDBBundlePath 384123 = "/tile/8/data/x001/500" :=
  ⟨by decide, C1_sumdb_bundle_path.2.1 7 (by decide), by decide,
    C1_sumdb_bundle_path.2.2.2 384123 (by decide)⟩

/-- C2: `sumDBLogClient.GetLeaf` requests from its fetcher the bundle path with
the partial suffix `.p/<index % 256 + 1>` exactly when `index % 256 ≠ 255`, and
the bare bundle path exactly when `index % 256 = 255`: the fetcher's answer at
that path is what the call works on (a fetch error is returned as it is, a
fetched blob is decoded and indexed), and no other answer of the fetcher
matters. -/
theorem C2_sumdb_partial_suffix (index : Nat) :
    (sumDBLeafPath index =
        sumDBBundlePath index ++ ".p/" ++ toString (index % 256 + 1) ↔ index % 256 ≠ 255) ∧
    (sumDBLeafPath index = sumDBBundlePath index ↔ index % 256 = 255) ∧
    (∀ (f g : String → Bytes × Option Err) (size : Nat),
      f (sumDBLeafPath index) = g (sumDBLeafPath index) →
      sumDBLogClient.GetLeaf f size index = sumDBLogClient.GetLeaf g size index) ∧
    (∀ (f : String → Bytes × Option Err) (size : Nat) (err : Err),
      (f (sumDBLeafPath index)).2 = some err →
      sumDBLogClient.GetLeaf f size index = some ([], some err)) ∧
    (∀ (f : String → Bytes × Option Err) (size : Nat) (data : Bytes),
      f (sumDBLeafPath index) = (data, none) →
      sumDBLogClient.GetLeaf f size index =
        ((dataToLeaves data)[index % 256]?).map (fun leaf => (leaf, none))) := by
  have hfetch : ∀ (f g : String → Bytes × Option Err) (size : Nat),
      f (sumDBLeafPath index) = g (sumDBLeafPath index) →
      sumDBLogClient.GetLeaf f size index = sumDBLogClient.GetLeaf g size index := by
    intro f g size hfg
    simp only [sumDBLogClient.GetLeaf, hfg]
  have herr : ∀ (f : String → Bytes × Option Err) (size : Nat) (err : Err),
      (f (sumDBLeafPath index)).2 = some err →
      sumDBLogClient.GetLeaf f size index = some ([], some err) := by
    intro f size err he
    simp only [sumDBLogClient.GetLeaf, he]
  have hdata : ∀ (f : String → Bytes × Option Err) (size : Nat) (data : Bytes),
      f (sumDBLeafPath index) = (data, none) →
      sumDBLogClient.GetLeaf f size index =
        ((dataToLeaves data)[index % 256]?).map (fun leaf => (leaf, none)) := by
    intro f size data hd
    simp only [sumDBLogClient.GetLeaf, hd]
    cases (dataToLeaves data)[index % 256]? <;> rfl
  have hne : sumDBBundlePath index ++ ".p/" ++ toString (index % 256 + 1) ≠
      sumDBBundlePath index := by
    intro h
    have hl := congrArg String.length h
    have h3 : ".p/".length = 3 := by decide
    simp only [String.length_append, h3] at hl
    omega
  refine ⟨?_, ?_, hfetch, herr, hdata⟩
  · by_cases h : index % 256 = 255
    · simp only [sumDBLeafPath, h, ne_eq, not_true_eq_false, if_false, iff_false]
      intro h2
      rw [h] at hne
      exact hne h2.symm
    · simp only [sumDBLeafPath, ne_eq, h, not_false_eq_true, if_true, iff_true]
  · by_cases h : index % 256 = 255
    · simp only [sumDBLeafPath, h, ne_eq, not_true_eq_false, if_false, iff_true]
    · simp only [sumDBLeafPath, ne_eq, h, not_false_eq_true, if_true, iff_false]
      exact hne

theorem C2_sumdb_partial_suffix_witness :
    onePathFetcher (sumDBLeafPath 3) = (ascii "A\n\nB\n\nC\n\nD", none) ∧
    (onePathFetcher "/tile/8/data/000").2 = some "unexpected http status" ∧
    sumDBLogClient.GetLeaf onePathFetcher 10 3 = some (ascii "D", none) :=
  ⟨by rw [sumDBLeafPath_3]; rfl, rfl,
    ((C2_sumdb_partial_suffix 3).2.2.2.2 onePathFetcher 10 (ascii "A\n\nB\n\nC\n\nD")
      (by rw [sumDBLeafPath_3]; rfl)).trans (by decide)⟩

/-- C3: `dataToLeaves` splits at blank lines and keeps the final record: for
every non-empty sequence of records, none holding two consecutive newlines and
all but the last ending in a newline (hence non-empty), the records joined
with one more newline between neighbours decode to exactly those records, in
order; so offset `index % 256` selects the record put at that position, and
`sumDBLogClient.GetLeaf` returns it. The blob `A\n\nB\n\nC` decodes to
`A\n`, `B\n`, `C`. -/
theorem C3_dataToLeaves_records (recs : List Bytes) (hne : recs ≠ [])
    (hno : ∀ r ∈ recs, NoBlankLine r)
    (hlast : ∀ r ∈ recs.dropLast, r.getLast? = some nl) :
    dataToLeaves (joinRecords recs) = recs ∧
    (∀ index : Nat, (dataToLeaves (joinRecords recs))[index % 256]? = recs[index % 256]?) ∧
    (∀ (fetcher : String → Bytes × Option Err) (size index : Nat) (leaf : Bytes),
      fetcher (sumDBLeafPath index) = (joinRecords recs, none) →
      recs[index % 256]? = some leaf →
      sumDBLogClient.GetLeaf fetcher size index = some (leaf, none)) ∧
    dataToLeaves (ascii "A\n\nB\n\nC") = [ascii "A\n", ascii "B\n", ascii "C"] := by
  have hdec := dataToLeaves_joinRecords recs hne hno hlast
  refine ⟨hdec, ?_, ?_, by decide⟩
  · intro index
    rw [hdec]
  · intro fetcher size index leaf hf hleaf
    simp only [sumDBLogClient.GetLeaf, hf, hdec, hleaf]

theorem C3_dataToLeaves_records_witness :
    [ascii "A\n", ascii "B\n", ascii "C"] ≠ [] ∧
    (∀ r ∈ [ascii "A\n", ascii "B\n", ascii "C"], NoBlankLine r) ∧
    (∀ r ∈ [ascii "A\n", ascii "B\n", ascii "C"].dropLast, r.getLast? = some nl) ∧
    dataToLeaves (joinRecords [ascii "A\n", ascii "B\n", ascii "C"]) =
      [ascii "A\n", ascii "B\n", ascii "C"] :=
  ⟨by decide, by decide, by decide,
    (C3_dataToLeaves_records [ascii "A\n", ascii "B\n", ascii "C"] (by decide) (by decide)
      (by decide)).1⟩

/-- C4: for every controller state and every `index ≥ size`,
`Controller.GetLeaf(size, index)` returns having made exactly one call,
`Model.SetLeaf` with the leaf that was current before and the bounds error: the
published leaf is unchanged, the published error is the bounds error, no call
goes to the log client, and the outcome is the same whatever the current log
client is. -/
theorem C4_getLeaf_out_of_bounds (c : Controller) (size index : Nat) (h : index ≥ size) :
    (c.GetLeaf size index).1 = Outcome.done ∧
    (c.GetLeaf size index).2.trace =
      c.trace ++ [Event.setLeaf c.Model.GetLeaf (some (boundsError size))] ∧
    (c.GetLeaf size index).2.Model.GetLeaf = c.Model.GetLeaf ∧
    (c.GetLeaf size index).2.Model.GetError = some (boundsError size) ∧
    (∀ o s i, Event.clientGetLeaf o s i ∉ (c.GetLeaf size index).2.trace.drop c.trace.length) ∧
    (∀ client : Option logClient,
      (Controller.GetLeaf { c with current := client } size index).1 = Outcome.done ∧
      (Controller.GetLeaf { c with current := client } size index).2.Model =
        (c.GetLeaf size index).2.Model) := by
  simp [Controller.GetLeaf, h, ViewModel.SetLeaf, ViewModel.GetLeaf, ViewModel.GetError]

theorem C4_getLeaf_out_of_bounds_witness :
    5 ≥ 3 ∧
    ((sampleController 1 4).GetLeaf 3 5).2.trace =
      (sampleController 1 4).trace ++
        [Event.setLeaf (sampleController 1 4).Model.GetLeaf (some (boundsError 3))] ∧
    ((sampleController 1 4).GetLeaf 3 5).2.Model.GetLeaf = (sampleController 1 4).Model.GetLeaf :=
  ⟨by decide, (C4_getLeaf_out_of_bounds (sampleController 1 4) 3 5 (by decide)).2.1,
    (C4_getLeaf_out_of_bounds (sampleController 1 4) 3 5 (by decide)).2.2.1⟩

/-- C5: with `uint64` index arithmetic, for every published checkpoint size,
`PrevLeaf` at published leaf index 0 and `NextLeaf` when the published leaf
index plus one (the `uint64` sum) equals the size compute a target index that
is not below the size, and end exactly as `GetLeaf` does on any out-of-range
index: the bounds error is published with the leaf unchanged and the log
client is not asked for a leaf. -/
theorem C5_prev_next_out_of_bounds (c : Controller) (size : Nat)
    (hsize : publishedSize c.Model = some size) (hs : size < 2 ^ 64) :
    (c.Model.GetLeaf.Index = 0 →
      ¬ (c.Model.GetLeaf.Index + 2 ^ 64 - 1) % 2 ^ 64 < size ∧
      (∀ index, index ≥ size → c.PrevLeaf = c.GetLeaf size index) ∧
      BoundsRejected c size c.PrevLeaf) ∧
    ((c.Model.GetLeaf.Index + 1) % 2 ^ 64 = size →
      ¬ (c.Model.GetLeaf.Index + 1) % 2 ^ 64 < size ∧
      (∀ index, index ≥ size → c.NextLeaf = c.GetLeaf size index) ∧
      BoundsRejected c size c.NextLeaf) := by
  have hsame : ∀ i j, i ≥ size → j ≥ size → c.GetLeaf size i = c.GetLeaf size j := by
    intro i j hi hj
    simp [Controller.GetLeaf, hi, hj]
  constructor
  · intro h0
    have ht : (c.Model.GetLeaf.Index + 2 ^ 64 - 1) % 2 ^ 64 ≥ size := by
      rw [h0]; norm_num; omega
    refine ⟨by omega, ?_, ?_⟩
    · intro index hidx
      simp only [Controller.PrevLeaf, hsize]
      exact hsame _ _ ht hidx
    · simp only [Controller.PrevLeaf, hsize]
      exact getLeaf_boundsRejected c size _ ht
  · intro h1
    have ht : (c.Model.GetLeaf.Index + 1) % 2 ^ 64 ≥ size := by omega
    refine ⟨by omega, ?_, ?_⟩
    · intro index hidx
      simp only [Controller.NextLeaf, hsize]
      exact hsame _ _ ht hidx
    · simp only [Controller.NextLeaf, hsize]
      exact getLeaf_boundsRejected c size _ ht

theorem C5_prev_next_out_of_bounds_witness :
    (publishedSize (sampleController 1 0).Model = some 5 ∧ 5 < 2 ^ 64 ∧
      (sampleController 1 0).Model.GetLeaf.Index = 0 ∧
      BoundsRejected (sampleController 1 0) 5 (sampleController 1 0).PrevLeaf) ∧
    (publishedSize (sampleController 1 4).Model = some 5 ∧ 5 < 2 ^ 64 ∧
      ((sampleController 1 4).Model.GetLeaf.Index + 1) % 2 ^ 64 = 5 ∧
      BoundsRejected (sampleController 1 4) 5 (sampleController 1 4).NextLeaf) :=
  ⟨⟨rfl, by decide, rfl,
      ((C5_prev_next_out_of_bounds (sampleController 1 0) 5 rfl (by decide)).1 rfl).2.2⟩,
    ⟨rfl, by decide, by decide,
      ((C5_prev_next_out_of_bounds (sampleController 1 4) 5 rfl (by decide)).2
        (by decide)).2.2⟩⟩

/-- C6: the code at a parse failure. The distributor answers, the parser
rejects the bytes, and `RefreshCheckpoint` publishes the healthy log checkpoint
error-free, as claimed, but publishes a witness checkpoint record (the raw
bytes, no parsed checkpoint, no note) where the claim says none is published;
when the distributor itself fails, none is published. -/
theorem C6_parse_failure_publishes_record :
    (answeringDistributor.GetCheckpointN (rejectingExtern.ID "a") 1).2 = none ∧
    (rejectingExtern.ParseCheckpoint (ascii "unsigned") "a" "a" []).2.2.2 =
      some "no log signature found on note" ∧
    ((sampleController 1 4).RefreshCheckpoint rejectingExtern).1 = Outcome.done ∧
    ((sampleController 1 4).RefreshCheckpoint rejectingExtern).2.Model.GetCheckpoint =
      (healthyClient "a" 5).GetCheckpoint.1 ∧
    ((sampleController 1 4).RefreshCheckpoint rejectingExtern).2.Model.GetError = none ∧
    ((sampleController 1 4).RefreshCheckpoint rejectingExtern).2.Model.witnessed =
      some { Checkpoint := none, Note := none, Raw := ascii "unsigned" } ∧
    ((sampleController 1 4).RefreshCheckpoint rejectingExtern).2.Model.witnessed ≠ none ∧
    (Controller.RefreshCheckpoint rejectingExtern
      (Controller.mk (sampleController 1 4).Model (sampleController 1 4).LogClients
        failingDistributor [] (some (healthyClient "a" 5)) [])).2.Model.witnessed = none := by
  decide

/-- C7 fails as stated at the top of the `uint` range: `IncWitnesses` at
quorum size `2 ^ 64 - 1` wraps the quorum size to 0. -/
theorem C7_counterexample :
    1 ≤ (sampleController (2 ^ 64 - 1) 4).Model.GetWitnessN ∧
    ((sampleController (2 ^ 64 - 1) 4).IncWitnesses rejectingExtern).2.Model.GetWitnessN = 0 := by
  decide

/-- C7 (amended): for a quorum size `N ≥ 1`, `IncWitnesses` sets it to `N + 1`
as long as `N + 1` fits the `uint` range, `DecWitnesses` sets it to `N - 1`
when `N > 1`, and in both cases it stays at least 1; `DecWitnesses` at `N = 1`
returns at once, leaving the whole controller state as it was: no refresh and
no change to the published state. -/
theorem C7_quorum_floor (ext : Extern) (c : Controller) (h : 1 ≤ c.Model.GetWitnessN) :
    (c.Model.GetWitnessN + 1 < 2 ^ 64 →
      (c.IncWitnesses ext).2.Model.GetWitnessN = c.Model.GetWitnessN + 1 ∧
      1 ≤ (c.IncWitnesses ext).2.Model.GetWitnessN) ∧
    (1 < c.Model.GetWitnessN →
      (c.DecWitnesses ext).2.Model.GetWitnessN = c.Model.GetWitnessN - 1 ∧
      1 ≤ (c.DecWitnesses ext).2.Model.GetWitnessN) ∧
    (c.Model.GetWitnessN = 1 → c.DecWitnesses ext = (Outcome.done, c)) := by
  have hkeep : ∀ d : Controller,
      (d.RefreshCheckpoint ext).2.Model.GetWitnessN = d.Model.GetWitnessN := by
    intro d
    unfold Controller.RefreshCheckpoint
    cases d.current <;> rfl
  refine ⟨?_, ?_, ?_⟩
  · intro hlt
    have hv : (c.IncWitnesses ext).2.Model.GetWitnessN = c.Model.GetWitnessN + 1 := by
      unfold Controller.IncWitnesses
      rw [hkeep]
      simp only [ViewModel.SetWitnessN, ViewModel.GetWitnessN] at hlt ⊢
      exact Nat.mod_eq_of_lt hlt
    exact ⟨hv, by omega⟩
  · intro hgt
    have hv : (c.DecWitnesses ext).2.Model.GetWitnessN = c.Model.GetWitnessN - 1 := by
      unfold Controller.DecWitnesses
      rw [if_neg (by omega), hkeep]
      rfl
    exact ⟨hv, by omega⟩
  · intro h1
    unfold Controller.DecWitnesses
    rw [if_pos (by omega)]

theorem C7_quorum_floor_witness :
    1 ≤ (sampleController 1 4).Model.GetWitnessN ∧
    1 ≤ (sampleController 2 4).Model.GetWitnessN ∧
    ((sampleController 1 4).IncWitnesses rejectingExtern).2.Model.GetWitnessN =
      (sampleController 1 4).Model.GetWitnessN + 1 ∧
    ((sampleController 2 4).DecWitnesses rejectingExtern).2.Model.GetWitnessN =
      (sampleController 2 4).Model.GetWitnessN - 1 ∧
    (sampleController 1 4).DecWitnesses rejectingExtern = (Outcome.done, sampleController 1 4) :=
  ⟨by decide, by decide,
    ((C7_quorum_floor rejectingExtern (sampleController 1 4) (by decide)).1 (by decide)).1,
    ((C7_quorum_floor rejectingExtern (sampleController 2 4) (by decide)).2.1 (by decide)).1,
    (C7_quorum_floor rejectingExtern (sampleController 1 4) (by decide)).2.2 rfl⟩

/-- C8 fails as stated: selecting the known, empty log `empty` while leaf 4 of
log `a` is published refreshes the checkpoint (size 0) and returns with leaf 4
of the previous log still published: the calls made are those of the refresh,
and `SetLeaf` is not among them. -/
theorem C8_counterexample :
    ((sampleController 1 4).LogClients "empty").isSome = true ∧
    (sampleController 1 4).Model.GetLeaf = { Contents := [4], Index := 4 } ∧
    ((sampleController 1 4).SelectLog rejectingExtern "empty").1 = Outcome.done ∧
    (((sampleController 1 4).SelectLog rejectingExtern "empty").2.current.map
      logClient.GetOrigin) = some "empty" ∧
    (publishedSize ((sampleController 1 4).SelectLog rejectingExtern "empty").2.Model) =
      some 0 ∧
    ((sampleController 1 4).SelectLog rejectingExtern "empty").2.Model.GetLeaf =
      { Contents := [4], Index := 4 } ∧
    ((sampleController 1 4).SelectLog rejectingExtern "empty").2.trace =
      [Event.distGetCheckpointN "empty" 1, Event.parseCheckpoint (ascii "unsigned") "empty",
        Event.clientGetCheckpoint "empty",
        Event.setCheckpoint (healthyClient "empty" 0).GetCheckpoint.1
          (some { Checkpoint := none, Note := none, Raw := ascii "unsigned" }) none] := by
  decide

/-- C8 (amended): for an origin that is a key of `LogClients`, `SelectLog` makes
that client the current one and always starts with a `RefreshCheckpoint` on it
(the calls of the refresh open the trace, the client's `GetCheckpoint` is
called and its checkpoint published); when that checkpoint is error-free with
size greater than 0 and the client's `GetLeaf` returns, the leaf published
afterwards is the one it returned for the new log's last leaf, index
`size - 1`, replacing the earlier selection; when the size is 0 neither the
client's `GetLeaf` nor `SetLeaf` is called and the earlier leaf stays
published. For an origin that is not a key, `SelectLog` returns with the
controller state unchanged. -/
theorem C8_selectLog (ext : Extern) (c : Controller) (o : String) :
    (∀ n, c.LogClients o = some n →
      (c.SelectLog ext o).2.current = some n ∧
      (Controller.RefreshCheckpoint ext { c with current := some n }).2.trace <+:
        (c.SelectLog ext o).2.trace ∧
      Event.clientGetCheckpoint n.GetOrigin ∈
        (c.SelectLog ext o).2.trace.drop c.trace.length ∧
      (c.SelectLog ext o).2.Model.GetCheckpoint = n.GetCheckpoint.1 ∧
      (∀ cp lc, n.GetCheckpoint = (some cp, none) → cp.Checkpoint = some lc →
        (∀ r, 0 < lc.Size → n.GetLeaf lc.Size (lc.Size - 1) = some r →
          (c.SelectLog ext o).1 = Outcome.done ∧
          (c.SelectLog ext o).2.Model.GetLeaf = { Contents := r.1, Index := lc.Size - 1 } ∧
          Event.clientGetLeaf n.GetOrigin lc.Size (lc.Size - 1) ∈
            (c.SelectLog ext o).2.trace.drop c.trace.length) ∧
        (lc.Size = 0 →
          (c.SelectLog ext o).1 = Outcome.done ∧
          (c.SelectLog ext o).2.Model.GetLeaf = c.Model.GetLeaf ∧
          (∀ leaf err, Event.setLeaf leaf err ∉
            (c.SelectLog ext o).2.trace.drop c.trace.length) ∧
          (∀ og s i, Event.clientGetLeaf og s i ∉
            (c.SelectLog ext o).2.trace.drop c.trace.length)))) ∧
    (c.LogClients o = none → c.SelectLog ext o = (Outcome.done, c)) := by
  constructor
  · intro n hn
    have hsel : c.SelectLog ext o = Controller.InitFromLog ext { c with current := some n } := by
      simp [Controller.SelectLog, hn]
    have href := initFromLog_refreshes ext { c with current := some n } n rfl
    rw [hsel]
    refine ⟨href.1, href.2.1, href.2.2.1, href.2.2.2, ?_⟩
    intro cp lc hgc hlc
    constructor
    · intro r hpos hr
      have hlt : lc.Size - 1 < lc.Size := by omega
      rw [initFromLog_fetch ext { c with current := some n } n cp lc rfl hgc hlc hpos,
        refresh_of_current ext { c with current := some n } n rfl,
        getLeaf_fetch _ n lc.Size (lc.Size - 1) r rfl hlt hr]
      refine ⟨rfl, rfl, ?_⟩
      simp only [List.append_assoc, List.drop_left]
      simp
    · intro h0
      have hno := refresh_no_leaf_event ext { c with current := some n } n rfl
      rw [initFromLog_empty ext { c with current := some n } n cp lc rfl hgc hlc h0]
      refine ⟨rfl, ?_, hno.1, hno.2⟩
      rw [refresh_of_current ext { c with current := some n } n rfl]
      rfl
  · intro hn
    simp [Controller.SelectLog, hn]

theorem C8_selectLog_witness :
    (sampleController 1 0).LogClients "a" = some (healthyClient "a" 5) ∧
    (sampleController 1 0).LogClients "empty" = some (healthyClient "empty" 0) ∧
    (sampleController 1 0).LogClients "unknown" = none ∧
    ((sampleController 1 0).SelectLog rejectingExtern "a").2.Model.GetLeaf =
      { Contents := [4], Index := 5 - 1 } ∧
    ((sampleController 1 0).SelectLog rejectingExtern "empty").2.Model.GetLeaf =
      (sampleController 1 0).Model.GetLeaf ∧
    (sampleController 1 0).SelectLog rejectingExtern "unknown" =
      (Outcome.done, sampleController 1 0) :=
  ⟨rfl, rfl, rfl,
    ((((C8_selectLog rejectingExtern (sampleController 1 0) "a").1 (healthyClient "a" 5)
      rfl).2.2.2.2 _ { Origin := "a", Size := 5, Hash := [] } rfl rfl).1 ([4], none)
      (by decide) rfl).2.1,
    ((((C8_selectLog rejectingExtern (sampleController 1 0) "empty").1
      (healthyClient "empty" 0) rfl).2.2.2.2 _ { Origin := "empty", Size := 0, Hash := [] }
      rfl rfl).2 rfl).2.1,
    (C8_selectLog rejectingExtern (sampleController 1 0) "unknown").2 rfl⟩

/-- C9 fails as stated: an error returned by the current client's
`GetCheckpoint` makes `InitFromLog`, and `SelectLog` of that client, end the
process through `klog.Exit`. -/
theorem C9_counterexample :
    (failingClient "down").GetCheckpoint.2 = some "unexpected http status" ∧
    (Controller.InitFromLog rejectingExtern
      { sampleController 1 4 with current := some (failingClient "down") }).1 =
        Outcome.exited "unexpected http status" ∧
    ((sampleController 1 4).SelectLog rejectingExtern "down").1 =
      Outcome.exited "unexpected http status" := by
  decide

/-- C9 (amended): with a current log client set, `RefreshCheckpoint`,
`IncWitnesses` and `DecWitnesses` return normally whatever the client's
`GetCheckpoint` returns, its error being published through `SetCheckpoint`;
`GetLeaf` returns normally on an out-of-range index and whenever the client's
`GetLeaf` returns, the returned error being published through `SetLeaf`;
`PrevLeaf` and `NextLeaf`, whenever a checkpoint size is published, are that
`GetLeaf` call at the `uint64` index minus or plus one. `InitFromLog`, and
`SelectLog` of a known origin, publish an error of `GetCheckpoint` through
`SetCheckpoint` and then end the process through `klog.Exit`; with an
error-free parsed checkpoint they return normally when its size is 0 or the
client's `GetLeaf` returns, the returned error being published through
`SetLeaf`. -/
theorem C9_errors_published (ext : Extern) (c : Controller) (cur : logClient)
    (hcur : c.current = some cur) :
    ((c.RefreshCheckpoint ext).1 = Outcome.done ∧
      (c.RefreshCheckpoint ext).2.Model.GetError = cur.GetCheckpoint.2) ∧
    (∀ size index r, index < size → cur.GetLeaf size index = some r →
      (c.GetLeaf size index).1 = Outcome.done ∧
      (c.GetLeaf size index).2.Model.GetError = r.2 ∧
      Event.setLeaf { Contents := r.1, Index := index } r.2 ∈
        (c.GetLeaf size index).2.trace.drop c.trace.length) ∧
    (∀ size index, index ≥ size →
      (c.GetLeaf size index).1 = Outcome.done ∧
      (c.GetLeaf size index).2.Model.GetError = some (boundsError size)) ∧
    ((c.IncWitnesses ext).1 = Outcome.done ∧
      (c.IncWitnesses ext).2.Model.GetError = cur.GetCheckpoint.2) ∧
    (c.DecWitnesses ext).1 = Outcome.done ∧
    (∀ size, publishedSize c.Model = some size →
      c.PrevLeaf = c.GetLeaf size ((c.Model.GetLeaf.Index + 2 ^ 64 - 1) % 2 ^ 64) ∧
      c.NextLeaf = c.GetLeaf size ((c.Model.GetLeaf.Index + 1) % 2 ^ 64)) ∧
    (∀ err, cur.GetCheckpoint.2 = some err →
      (c.InitFromLog ext).1 = Outcome.exited err ∧
      (c.InitFromLog ext).2.Model.GetError = some err ∧
      Event.setCheckpoint cur.GetCheckpoint.1 (c.InitFromLog ext).2.Model.witnessed
        (some err) ∈ (c.InitFromLog ext).2.trace.drop c.trace.length) ∧
    (∀ cp lc, cur.GetCheckpoint = (some cp, none) → cp.Checkpoint = some lc →
      (lc.Size = 0 → (c.InitFromLog ext).1 = Outcome.done) ∧
      (∀ r, 0 < lc.Size → cur.GetLeaf lc.Size (lc.Size - 1) = some r →
        (c.InitFromLog ext).1 = Outcome.done ∧
        (c.InitFromLog ext).2.Model.GetError = r.2)) ∧
    (∀ o n, c.LogClients o = some n →
      (∀ err, n.GetCheckpoint.2 = some err →
        (c.SelectLog ext o).1 = Outcome.exited err ∧
        (c.SelectLog ext o).2.Model.GetError = some err) ∧
      (∀ cp lc, n.GetCheckpoint = (some cp, none) → cp.Checkpoint = some lc →
        (lc.Size = 0 → (c.SelectLog ext o).1 = Outcome.done) ∧
        (∀ r, 0 < lc.Size → n.GetLeaf lc.Size (lc.Size - 1) = some r →
          (c.SelectLog ext o).1 = Outcome.done ∧
          (c.SelectLog ext o).2.Model.GetError = r.2))) := by
  have href : ∀ d : Controller, d.current = some cur →
      (d.RefreshCheckpoint ext).1 = Outcome.done ∧
      (d.RefreshCheckpoint ext).2.Model.GetError = cur.GetCheckpoint.2 := by
    intro d hd
    rw [refresh_of_current ext d cur hd]
    exact ⟨rfl, rfl⟩
  have hinit : ∀ (d : Controller) (n : logClient), d.current = some n →
      (∀ err, n.GetCheckpoint.2 = some err →
        (d.InitFromLog ext).1 = Outcome.exited err ∧
        (d.InitFromLog ext).2.Model.GetError = some err ∧
        Event.setCheckpoint n.GetCheckpoint.1 (d.InitFromLog ext).2.Model.witnessed
          (some err) ∈ (d.InitFromLog ext).2.trace.drop d.trace.length) ∧
      (∀ cp lc, n.GetCheckpoint = (some cp, none) → cp.Checkpoint = some lc →
        (lc.Size = 0 → (d.InitFromLog ext).1 = Outcome.done) ∧
        (∀ r, 0 < lc.Size → n.GetLeaf lc.Size (lc.Size - 1) = some r →
          (d.InitFromLog ext).1 = Outcome.done ∧
          (d.InitFromLog ext).2.Model.GetError = r.2)) := by
    intro d n hd
    constructor
    · intro err herr
      rw [initFromLog_exit ext d n err hd herr, refresh_of_current ext d n hd]
      refine ⟨rfl, ?_, ?_⟩
      · simp [ViewModel.SetCheckpoint, ViewModel.GetError, herr]
      · simp [ViewModel.SetCheckpoint, herr]
    · intro cp lc hgc hlc
      constructor
      · intro h0
        rw [initFromLog_empty ext d n cp lc hd hgc hlc h0]
      · intro r hpos hr
        have hlt : lc.Size - 1 < lc.Size := by omega
        have hd2 : (d.RefreshCheckpoint ext).2.current = some n := by
          rw [refresh_of_current ext d n hd]
          exact hd
        rw [initFromLog_fetch ext d n cp lc hd hgc hlc hpos,
          getLeaf_fetch _ n lc.Size (lc.Size - 1) r hd2 hlt hr]
        exact ⟨rfl, rfl⟩
  refine ⟨href c hcur, ?_, ?_, ?_, ?_, ?_, (hinit c cur hcur).1, (hinit c cur hcur).2, ?_⟩
  · intro size index r hlt hr
    rw [getLeaf_fetch c cur size index r hcur hlt hr]
    refine ⟨rfl, rfl, ?_⟩
    simp
  · intro size index hge
    have hb := getLeaf_boundsRejected c size index hge
    exact ⟨hb.1, hb.2.2.2.1⟩
  · unfold Controller.IncWitnesses
    refine href _ ?_
    exact hcur
  · unfold Controller.DecWitnesses
    by_cases h : c.Model.GetWitnessN ≤ 1
    · rw [if_pos h]
    · rw [if_neg h]
      refine (href _ ?_).1
      exact hcur
  · intro size hsize
    constructor
    · unfold Controller.PrevLeaf
      rw [hsize]
    · unfold Controller.NextLeaf
      rw [hsize]
  · intro o n hn
    have hsel : c.SelectLog ext o = Controller.InitFromLog ext { c with current := some n } := by
      simp [Controller.SelectLog, hn]
    have h := hinit { c with current := some n } n rfl
    rw [hsel]
    exact ⟨fun err herr => ⟨(h.1 err herr).1, (h.1 err herr).2.1⟩, h.2⟩

theorem C9_errors_published_witness :
    (Controller.mk (sampleController 1 4).Model (sampleController 1 4).LogClients
      answeringDistributor [] (some (leaflessClient "a")) []).current =
        some (leaflessClient "a") ∧
    (leaflessClient "a").GetLeaf 5 2 = some ([], some "unexpected http status") ∧
    ((Controller.mk (sampleController 1 4).Model (sampleController 1 4).LogClients
      answeringDistributor [] (some (leaflessClient "a")) []).GetLeaf 5 2).1 = Outcome.done ∧
    ((Controller.mk (sampleController 1 4).Model (sampleController 1 4).LogClients
      answeringDistributor [] (some (leaflessClient "a")) []).GetLeaf 5 2).2.Model.GetError =
        some "unexpected http status" :=
  ⟨rfl, rfl,
    ((C9_errors_published rejectingExtern
      (Controller.mk (sampleController 1 4).Model (sampleController 1 4).LogClients
        answeringDistributor [] (some (leaflessClient "a")) []) (leaflessClient "a")
      rfl).2.1 5 2 ([], some "unexpected http status") (by decide) rfl).1,
    ((C9_errors_published rejectingExtern
      (Controller.mk (sampleController 1 4).Model (sampleController 1 4).LogClients
        answeringDistributor [] (some (leaflessClient "a")) []) (leaflessClient "a")
      rfl).2.1 5 2 ([], some "unexpected http status") (by decide) rfl).2.1⟩

/-- C10: for every tree size and every `index < size`,
`tLogTilesLogClient.GetLeaf` asks for bundle `index / 256` with the tree size
unchanged (its result depends on the bundle source only through that request)
and selects offset `index % 256`; `256 * (index / 256) + index % 256 = index`,
the offset is below 256 and below the number of leaves the bundle holds in a
tree of that size, so on the entries of that bundle the selection is in range
and returns the leaf at `index`. -/
theorem C10_tiles_addressing (size index : Nat) (h : index < size) :
    256 * (index / 256) + index % 256 = index ∧
    index % 256 < 256 ∧
    index % 256 < bundleLeafCount size (index / 256) ∧
    (∀ g g' : Nat → Nat → List Bytes × Option Err,
      g (index / 256) size = g' (index / 256) size →
      tLogTilesLogClient.GetLeaf g size index = tLogTilesLogClient.GetLeaf g' size index) ∧
    (∀ leaves : List Bytes, size ≤ leaves.length →
      ∃ leaf, leaves[index]? = some leaf ∧
        tLogTilesLogClient.GetLeaf (entryBundleOf leaves) size index = some (leaf, none)) := by
  refine ⟨Nat.div_add_mod index 256, Nat.mod_lt _ (by decide),
    offset_lt_bundleLeafCount size index h, ?_, ?_⟩
  · intro g g' hg
    simp only [tLogTilesLogClient.GetLeaf, hg]
  · intro leaves hlen
    have hi : index < leaves.length := by omega
    refine ⟨leaves[index], List.getElem?_eq_getElem hi, ?_⟩
    have he := entryBundleOf_getElem? leaves size index h
    rw [List.getElem?_eq_getElem hi] at he
    simp only [tLogTilesLogClient.GetLeaf, he]
    rfl

theorem C10_tiles_addressing_witness :
    299 < 300 ∧ 256 * (299 / 256) + 299 % 256 = 299 ∧
    299 % 256 < bundleLeafCount 300 (299 / 256) :=
  ⟨by decide, (C10_tiles_addressing 300 299 (by decide)).1,
    (C10_tiles_addressing 300 299 (by decide)).2.2.1⟩

end Woodpecker
